import Mathlib

/-!
Shallow embedding of the request-signing and resumable-session core of the
minio client (mc), together with proofs settling the specification claims.

Modelling conventions:
* Pure Go functions become Lean functions.  Functions that mutate the HTTP
  request (its header map or its URL raw query) take the request and return
  the updated request explicitly.
* The current time (taken from time.Now().UTC() in the source) is an explicit
  TimeStamp parameter carrying the formatted renderings the source uses.
* The cryptographic primitives (HMAC-SHA256, SHA-256, HMAC-SHA1, hex, base64)
  are an explicit CryptoPrims parameter: every claim proved here holds for
  every choice of these functions, so nothing depends on stubbed crypto.
* Strings stand for Go byte strings; header names and the inputs of the
  claims are ASCII, and the ASCII-only case transformations below coincide
  with Go's behaviour on them.
-/

namespace Mc

set_option maxRecDepth 8000
set_option maxHeartbeats 2000000

/-- ASCII lower-casing of one character, as Go applies it byte-wise to header
names (strings.ToLower on ASCII input). -/
def charLower (c : Char) : Char :=
  if 65 ≤ c.toNat ∧ c.toNat ≤ 90 then Char.ofNat (c.toNat + 32) else c

/-- ASCII upper-casing of one character. -/
def charUpper (c : Char) : Char :=
  if 97 ≤ c.toNat ∧ c.toNat ≤ 122 then Char.ofNat (c.toNat - 32) else c

/-- Models Go strings.ToLower on the ASCII strings this code applies it to. -/
def strLower (s : String) : String := ⟨s.data.map charLower⟩

/-- Byte-wise lexicographic comparison of character lists (code points agree
with UTF-8 byte order), the order used by Go sort.Strings. -/
def listLe : List Char → List Char → Bool
  | [], _ => true
  | _ :: _, [] => false
  | a :: as, b :: bs =>
    if a.toNat < b.toNat then true
    else if b.toNat < a.toNat then false
    else listLe as bs

/-- The string order of Go sort.Strings, as a proposition. -/
def strLeP (a b : String) : Prop := listLe a.data b.data = true

instance : DecidableRel strLeP := fun a b =>
  inferInstanceAs (Decidable (listLe a.data b.data = true))

/-- Models Go sort.Strings (ascending byte order; all sorted elements here
are distinct or identical strings, so stability is irrelevant). -/
def sortStrings (l : List String) : List String := List.insertionSort strLeP l

/-- Models Go strings.TrimSuffix. -/
def strTrimSuffix (s sfx : String) : String :=
  if sfx.data.isSuffixOf s.data then ⟨s.data.take (s.data.length - sfx.data.length)⟩ else s

/-- Hexadecimal digit value, as net/url unhex: 0-9, a-f, A-F. -/
def hexDigit (c : Char) : Option Nat :=
  if 48 ≤ c.toNat ∧ c.toNat ≤ 57 then some (c.toNat - 48)
  else if 65 ≤ c.toNat ∧ c.toNat ≤ 70 then some (c.toNat - 55)
  else if 97 ≤ c.toNat ∧ c.toNat ≤ 102 then some (c.toNat - 87)
  else none

/-- Upper-case hexadecimal digit character, as net/url uses for escaping. -/
def hexDigitChar (n : Nat) : Char :=
  if n < 10 then Char.ofNat (48 + n) else Char.ofNat (55 + n)

/-- Models net/url QueryUnescape on a character list: %XX decodes a byte,
+ decodes a space, a malformed escape is an error (none). -/
def unescapeList : List Char → Option (List Char)
  | [] => some []
  | '%' :: a :: b :: rest =>
    match hexDigit a, hexDigit b with
    | some x, some y => (unescapeList rest).map (fun r => Char.ofNat (16 * x + y) :: r)
    | _, _ => none
  | '%' :: _ => none
  | '+' :: rest => (unescapeList rest).map (fun r => ' ' :: r)
  | c :: rest => (unescapeList rest).map (fun r => c :: r)

/-- Models net/url QueryUnescape. -/
def queryUnescape (s : String) : Option String := (unescapeList s.data).map (⟨·⟩)

/-- Characters net/url QueryEscape leaves unescaped: alphanumerics and -_.~ . -/
def isUnreservedQueryChar (c : Char) : Bool :=
  c.isAlphanum || c = '-' || c = '_' || c = '.' || c = '~'

/-- Escape one character as net/url QueryEscape does: unreserved characters
pass through, space becomes +, everything else becomes %XX. -/
def escapeChar (c : Char) : List Char :=
  if isUnreservedQueryChar c then [c]
  else if c = ' ' then ['+']
  else ['%', hexDigitChar (c.toNat / 16 % 16), hexDigitChar (c.toNat % 16)]

/-- Models net/url QueryEscape (byte model: the ASCII inputs used here). -/
def queryEscape (s : String) : String := ⟨(s.data.map escapeChar).flatten⟩

/-- url.Values: a map from key to the ordered list of values, modelled as an
association list in first-appearance order (keys are unique). -/
abbrev Values := List (String × List String)

/-- Go map lookup in an association list with unique keys. -/
def lookupVals : List (String × List String) → String → Option (List String)
  | [], _ => none
  | kv :: rest, k => if kv.1 = k then some kv.2 else lookupVals rest k

/-- m[key] = append(m[key], value) on url.Values. -/
def valuesAdd : Values → String → String → Values
  | [], k, v => [(k, [v])]
  | kv :: rest, k, v =>
    if kv.1 = k then (kv.1, kv.2 ++ [v]) :: rest else kv :: valuesAdd rest k v

/-- url.Values.Set: map[key] = []string{value}. -/
def valuesSet (vals : Values) (k v : String) : Values :=
  if (lookupVals vals k).isSome
  then vals.map (fun kv => if kv.1 = k then (k, [v]) else kv)
  else vals ++ [(k, [v])]

/-- Lookup of the value list of a key, empty when absent (a Go map read). -/
def valuesGetList (vals : Values) (k : String) : List String :=
  (lookupVals vals k).getD []

/-- Split a query piece at the first '=' (absent '=' leaves the value empty,
exactly as net/url ParseQuery does). -/
def splitAtEq : List Char → List Char × List Char
  | [] => ([], [])
  | '=' :: rest => ([], rest)
  | c :: rest => ((splitAtEq rest).1.cons c, (splitAtEq rest).2)

/-- One pass of net/url ParseQuery over the pieces of the query: empty pieces
and pieces whose key or value fails to unescape are skipped. -/
def parseQueryList : List String → Values → Values
  | [], acc => acc
  | piece :: rest, acc =>
    if piece = "" then parseQueryList rest acc
    else
      let kv := splitAtEq piece.data
      match queryUnescape ⟨kv.1⟩, queryUnescape ⟨kv.2⟩ with
      | some k, some v => parseQueryList rest (valuesAdd acc k v)
      | _, _ => parseQueryList rest acc

/-- Split a character list at every separator character. -/
def splitList (p : Char → Bool) : List Char → List (List Char)
  | [] => [[]]
  | c :: rest =>
    if p c then [] :: splitList p rest
    else
      match splitList p rest with
      | [] => [[c]]
      | piece :: pieces => (c :: piece) :: pieces

/-- Models net/url ParseQuery (the callers discard its error): splits on the
separators Go 1.x used for queries and collects key/value pairs. -/
def parseQuery (s : String) : Values :=
  parseQueryList ((splitList (fun c => c = '&' || c = ';') s.data).map (⟨·⟩)) []

/-- Models url.Values.Encode: keys sorted, each value rendered as
escaped key = escaped value, joined by ampersands. -/
def valuesEncode (vals : Values) : String :=
  let keys := sortStrings (vals.map (·.1))
  String.intercalate "&"
    ((keys.map (fun k => (valuesGetList vals k).map
      (fun v => queryEscape k ++ "=" ++ queryEscape v))).flatten)

/-- strings.Replace(s, "+", "%20", -1) as applied in getCanonicalRequest. -/
def replacePlus (s : String) : String :=
  ⟨(s.data.map (fun c => if c = '+' then ['%', '2', '0'] else [c])).flatten⟩

/-- An http.Header: map from (stored) name to value list, modelled as an
association list; Go iterates the map in arbitrary order and every consumer
below either sorts or looks up, with the overwrite order made explicit. -/
abbrev Header := List (String × List String)

/-- One step of Go net/textproto canonicalisation: upper-case a letter at the
start or after a hyphen, lower-case every other letter; the flag for the next
character comes from the transformed character, as in the Go loop. -/
def canonAux : Bool → List Char → List Char
  | _, [] => []
  | upper, c :: cs =>
    let d := if upper then charUpper c else charLower c
    d :: canonAux (d = '-') cs

/-- Models Go http.CanonicalHeaderKey (net/textproto CanonicalMIMEHeaderKey)
on the ASCII token keys used here: first letter and each letter following a
hyphen upper-cased, the rest lower-cased. -/
def canonicalHeaderKey (s : String) : String := ⟨canonAux true s.data⟩

/-- Models http.Header.Get: canonicalise the argument, then an exact map
lookup, returning the first value (empty string when absent). -/
def headerGet (h : Header) (k : String) : String :=
  match lookupVals h (canonicalHeaderKey k) with
  | some (v :: _) => v
  | _ => ""

/-- Models http.Header.Set: canonicalise the key and replace its entry. -/
def headerSet (h : Header) (k v : String) : Header :=
  if (lookupVals h (canonicalHeaderKey k)).isSome
  then h.map (fun kv =>
    if kv.1 = canonicalHeaderKey k then (canonicalHeaderKey k, [v]) else kv)
  else h ++ [(canonicalHeaderKey k, [v])]

/-! ### Order properties of the string comparison used for sorting -/

theorem listLe_total : ∀ l1 l2 : List Char, listLe l1 l2 = true ∨ listLe l2 l1 = true
  | [], _ => Or.inl rfl
  | _ :: _, [] => Or.inr rfl
  | a :: as, b :: bs => by
    by_cases hab : a.toNat < b.toNat
    · exact Or.inl (by simp [listLe, hab])
    · by_cases hba : b.toNat < a.toNat
      · exact Or.inr (by simp [listLe, hba])
      · rcases listLe_total as bs with h | h
        · exact Or.inl (by simp [listLe, hab, hba, h])
        · exact Or.inr (by simp [listLe, hab, hba, h])

theorem listLe_trans : ∀ {l1 l2 l3 : List Char},
    listLe l1 l2 = true → listLe l2 l3 = true → listLe l1 l3 = true
  | [], _, _, _, _ => rfl
  | a :: as, [], _, h, _ => by simp [listLe] at h
  | a :: as, b :: bs, [], _, h => by simp [listLe] at h
  | a :: as, b :: bs, c :: cs, h1, h2 => by
    simp only [listLe] at h1 h2 ⊢
    by_cases hab : a.toNat < b.toNat
    · by_cases hbc : b.toNat < c.toNat
      · simp [show a.toNat < c.toNat by omega]
      · simp only [hbc, if_false] at h2
        by_cases hcb : c.toNat < b.toNat
        · simp [hcb] at h2
        · simp [show a.toNat < c.toNat by omega]
    · simp only [hab, if_false] at h1
      by_cases hba : b.toNat < a.toNat
      · simp [hba] at h1
      · rw [if_neg hba] at h1
        by_cases hbc : b.toNat < c.toNat
        · simp [show a.toNat < c.toNat by omega]
        · simp only [hbc, if_false] at h2
          by_cases hcb : c.toNat < b.toNat
          · simp [hcb] at h2
          · rw [if_neg hcb] at h2
            have hac : ¬ a.toNat < c.toNat := by omega
            have hca : ¬ c.toNat < a.toNat := by omega
            simp only [hac, hca, if_false]
            exact listLe_trans h1 h2

theorem char_toNat_inj {a b : Char} (h : a.toNat = b.toNat) : a = b := by
  apply Char.ext
  apply UInt32.eq_of_toBitVec_eq
  exact BitVec.eq_of_toNat_eq h

theorem listLe_antisymm : ∀ {l1 l2 : List Char},
    listLe l1 l2 = true → listLe l2 l1 = true → l1 = l2
  | [], [], _, _ => rfl
  | [], _ :: _, _, h => by simp [listLe] at h
  | _ :: _, [], h, _ => by simp [listLe] at h
  | a :: as, b :: bs, h1, h2 => by
    simp only [listLe] at h1 h2
    by_cases hab : a.toNat < b.toNat
    · by_cases hba : b.toNat < a.toNat
      · omega
      · simp [hab, hba] at h2
    · by_cases hba : b.toNat < a.toNat
      · simp [hab, hba] at h1
      · simp only [hab, hba, if_false] at h1 h2
        have : a = b := char_toNat_inj (by omega)
        rw [this, listLe_antisymm h1 h2]

instance : IsTotal String strLeP := ⟨fun a b => listLe_total a.data b.data⟩

instance : IsTrans String strLeP := ⟨fun _ _ _ h1 h2 => listLe_trans h1 h2⟩

instance : IsAntisymm String strLeP :=
  ⟨fun _ _ h1 h2 => String.ext (listLe_antisymm h1 h2)⟩

theorem sortStrings_sorted (l : List String) : List.Sorted strLeP (sortStrings l) :=
  List.sorted_insertionSort strLeP l

theorem sortStrings_perm (l : List String) : (sortStrings l).Perm l :=
  List.perm_insertionSort strLeP l

/-- Sorting two lists that are permutations of each other gives one list. -/
theorem sortStrings_congr_perm {l1 l2 : List String} (h : l1.Perm l2) :
    sortStrings l1 = sortStrings l2 :=
  List.eq_of_perm_of_sorted
    ((sortStrings_perm l1).trans (h.trans (sortStrings_perm l2).symm))
    (sortStrings_sorted l1) (sortStrings_sorted l2)

/-! ### Case-transformation lemmas for ASCII characters -/

theorem toNat_ofNat_valid (n : Nat) (h : n.isValidChar) : (Char.ofNat n).toNat = n := by
  simp only [Char.ofNat, h, dite_true, Char.ofNatAux, Char.toNat]
  rfl

theorem charLower_toNat (c : Char) :
    (charLower c).toNat = if 65 ≤ c.toNat ∧ c.toNat ≤ 90 then c.toNat + 32 else c.toNat := by
  unfold charLower
  by_cases h : 65 ≤ c.toNat ∧ c.toNat ≤ 90
  · simp only [h, if_true]
    exact toNat_ofNat_valid _ (Or.inl (by omega))
  · simp [h]

theorem charUpper_toNat (c : Char) :
    (charUpper c).toNat = if 97 ≤ c.toNat ∧ c.toNat ≤ 122 then c.toNat - 32 else c.toNat := by
  unfold charUpper
  by_cases h : 97 ≤ c.toNat ∧ c.toNat ≤ 122
  · simp only [h, if_true]
    exact toNat_ofNat_valid _ (Or.inl (by omega))
  · simp [h]

theorem charLower_toNat_ne (c : Char) {m : Nat} (hm : m < 65) :
    (charLower c).toNat = m ↔ c.toNat = m := by
  rw [charLower_toNat]
  by_cases hr : 65 ≤ c.toNat ∧ c.toNat ≤ 90
  · rw [if_pos hr]
    omega
  · rw [if_neg hr]

theorem charUpper_toNat_ne (c : Char) {m : Nat} (hm : m < 65) :
    (charUpper c).toNat = m ↔ c.toNat = m := by
  rw [charUpper_toNat]
  by_cases hr : 97 ≤ c.toNat ∧ c.toNat ≤ 122
  · rw [if_pos hr]
    omega
  · rw [if_neg hr]

theorem charUpper_charLower (c : Char) : charUpper (charLower c) = charUpper c := by
  apply char_toNat_inj
  rw [charUpper_toNat (charLower c), charUpper_toNat c, charLower_toNat c]
  split_ifs <;> omega

theorem charLower_charLower (c : Char) : charLower (charLower c) = charLower c := by
  apply char_toNat_inj
  rw [charLower_toNat (charLower c), charLower_toNat c]
  split_ifs <;> omega

theorem charLower_charUpper (c : Char) : charLower (charUpper c) = charLower c := by
  apply char_toNat_inj
  rw [charLower_toNat (charUpper c), charUpper_toNat c, charLower_toNat c]
  split_ifs <;> omega

theorem charLower_eq_dash {c : Char} : charLower c = '-' ↔ c = '-' := by
  have h45 : ('-' : Char).toNat = 45 := rfl
  constructor
  · intro h
    have h1 := congrArg Char.toNat h
    rw [h45, charLower_toNat_ne c (by omega)] at h1
    exact char_toNat_inj (by omega)
  · intro h
    subst h
    decide

theorem charUpper_eq_dash {c : Char} : charUpper c = '-' ↔ c = '-' := by
  have h45 : ('-' : Char).toNat = 45 := rfl
  constructor
  · intro h
    have h1 := congrArg Char.toNat h
    rw [h45, charUpper_toNat_ne c (by omega)] at h1
    exact char_toNat_inj (by omega)
  · intro h
    subst h
    decide

/-- Characters with equal lower-casings canonicalise identically at every
flag state: the step transform and the next flag depend only on the
lower-cased character. -/
theorem canonAux_congr : ∀ {cs1 cs2 : List Char}, cs1.map charLower = cs2.map charLower →
    ∀ upper, canonAux upper cs1 = canonAux upper cs2
  | [], [], _, _ => rfl
  | [], _ :: _, h, _ => by simp at h
  | _ :: _, [], h, _ => by simp at h
  | c1 :: cs1, c2 :: cs2, h, upper => by
    simp only [List.map_cons, List.cons.injEq] at h
    obtain ⟨hc, hcs⟩ := h
    have hd : (if upper then charUpper c1 else charLower c1)
        = (if upper then charUpper c2 else charLower c2) := by
      cases upper
      · simpa using hc
      · simpa using (charUpper_charLower c1).symm.trans
          ((congrArg charUpper hc).trans (charUpper_charLower c2))
    simp only [canonAux, hd]
    rw [canonAux_congr hcs]

/-- Header keys with equal lower-casings have equal canonical keys. -/
theorem canonicalHeaderKey_congr {k1 k2 : String} (h : strLower k1 = strLower k2) :
    canonicalHeaderKey k1 = canonicalHeaderKey k2 := by
  unfold canonicalHeaderKey
  have hdata : k1.data.map charLower = k2.data.map charLower :=
    congrArg String.data h
  rw [canonAux_congr hdata true]

/-- Lower-casing a canonicalised key gives the lower-cased key: the canonical
transform only toggles letter case. -/
theorem strLower_canonAux : ∀ (cs : List Char) (upper : Bool),
    (canonAux upper cs).map charLower = cs.map charLower
  | [], _ => rfl
  | c :: cs, upper => by
    simp only [canonAux, List.map_cons]
    rw [strLower_canonAux cs]
    congr 1
    cases upper
    · simp only [if_false, Bool.false_eq_true]
      exact charLower_charLower c
    · simp only [if_true]
      exact charLower_charUpper c

theorem strLower_canonicalHeaderKey (k : String) :
    strLower (canonicalHeaderKey k) = strLower k := by
  unfold strLower canonicalHeaderKey
  exact congrArg (fun l => String.mk l) (strLower_canonAux k.data true)

/-! ### Resumable sessions (session V6, src/unnamed/part_000) -/

/-- One call of the closure returned by isCopiedFactory(lastCopied).  The
closure state is the captured boolean copied (initially true); an empty
source URL hits fatalIf and aborts, modelled as none.  Returns the result
of the call together with the closure state after the call. -/
def isCopied (lastCopied : String) (copied : Bool) (sourceURL : String) :
    Option (Bool × Bool) :=
  if sourceURL = "" then none
  else if lastCopied = "" then some (false, copied)
  else if copied then
    if lastCopied = sourceURL then some (true, false) else some (true, true)
  else some (false, copied)

/-- Successive calls of the isCopiedFactory closure over a replayed item
sequence, threading the closure state. -/
def isCopiedAll (lastCopied : String) : Bool → List String → Option (List Bool)
  | _, [] => some []
  | copied, u :: us =>
    match isCopied lastCopied copied u with
    | none => none
    | some bc => (isCopiedAll lastCopied bc.2 us).map (bc.1 :: ·)

/-- The answers of a fresh isCopiedFactory(lastCopied) closure applied to the
items of a replayed sequence in order (the closure starts with copied = true). -/
def runIsCopied (lastCopied : String) (urls : List String) : Option (List Bool) :=
  isCopiedAll lastCopied true urls

/-- A stored session directory: header files (session id with the stored
format-version tag, the only header field the claims depend on) and data
files, both enumerated in directory order. -/
structure SessionStore where
  headers : List (String × String)
  datas : List String
deriving DecidableEq

/-- Go map-style lookup of a stored header file by session id. -/
def lookupStr : List (String × String) → String → Option String
  | [], _ => none
  | kv :: rest, k => if kv.1 = k then some kv.2 else lookupStr rest k

/-- Membership of a session id among the stored data files. -/
def listHasStr : List String → String → Bool
  | [], _ => false
  | x :: xs, a => if x = a then true else listHasStr xs a

/-- Models getSessionIDs: the session ids of the stored header files. -/
def getSessionIDs (st : SessionStore) : List String := st.headers.map (·.1)

/-- The in-memory session object loadSessionV6 returns, reduced to the
fields the claims depend on (the id and the stored version tag; the header
is populated from the stored file whatever its version). -/
structure SessionV6 where
  sessionID : String
  version : String
deriving DecidableEq

/-- Models loadSessionV6: reads the stored header for the id (no version
check of any kind), opens the data file, and returns the populated session;
a missing header or data file yields no session (the source reports a
not-found error for a missing header and aborts on a missing data file; both
failure modes return no session object). -/
def loadSessionV6 (st : SessionStore) (sid : String) : Option SessionV6 :=
  match lookupStr st.headers sid with
  | none => none
  | some ver => if listHasStr st.datas sid then some ⟨sid, ver⟩ else none

/-- Removing both artifacts (header file and data file) of one session id. -/
def removeSession (st : SessionStore) (sid : String) : SessionStore :=
  ⟨st.headers.filter (fun kv => !decide (kv.1 = sid)),
   st.datas.filter (fun x => !decide (x = sid))⟩

/-- The loop of migrateSessionV5ToV6 over the enumerated session ids: load
each session; on a load failure fatalIf aborts (none); if the loaded header
has version "6" the whole function returns at once; otherwise both artifacts
are removed and the loop continues. -/
def migrateLoop (st : SessionStore) : List String → Option SessionStore
  | [] => some st
  | sid :: rest =>
    match loadSessionV6 st sid with
    | none => none
    | some s =>
      if s.version = "6" then some st
      else migrateLoop (removeSession st sid) rest

/-- Models migrateSessionV5ToV6. -/
def migrateSessionV5ToV6 (st : SessionStore) : Option SessionStore :=
  migrateLoop st (getSessionIDs st)

/-- The observable effects of a header flush, in program order. -/
inductive SessionEv
  | syncData
  | closeData
  | writeHeader
deriving DecidableEq

/-- Models sessionV6.Save: under the session mutex, if the data file pointer
is dirty it is synced first (a failed sync returns before any header write,
leaving the dirty flag set); then the header is serialised and written.
Returns the events in order, whether the header write was reached, and the
dirty flag afterwards. -/
def sessionSave (dirty syncOk : Bool) : List SessionEv × Bool × Bool :=
  if dirty then
    if syncOk then ([.syncData, .writeHeader], true, false)
    else ([.syncData], false, true)
  else ([.writeHeader], true, false)

/-- Models sessionV6.Close: under the session mutex, the data file is closed
(no explicit sync of unflushed writes); a failed close returns before any
header write; then the header is serialised and written. -/
def sessionClose (closeOk : Bool) : List SessionEv :=
  if closeOk then [.closeData, .writeHeader] else [.closeData]

/-! ### Lemmas about the resume filter -/

theorem isCopiedAll_done {c : String} (hc : c ≠ "") :
    ∀ zs : List String, "" ∉ zs →
      isCopiedAll c false zs = some (List.replicate zs.length false) := by
  intro zs
  induction zs with
  | nil => intro _; rfl
  | cons u us ih =>
    intro h
    rw [List.mem_cons] at h
    push_neg at h
    obtain ⟨hu, hus⟩ := h
    have hu2 : ¬ u = "" := fun he => hu he.symm
    have hstep : isCopied c false u = some (false, false) := by
      unfold isCopied
      rw [if_neg hu2, if_neg hc]
      rfl
    simp only [isCopiedAll, hstep, ih hus, Option.map_some]
    simp [List.replicate_succ]

theorem isCopiedAll_empty_checkpoint :
    ∀ (xs : List String) (copied : Bool), "" ∉ xs →
      isCopiedAll "" copied xs = some (List.replicate xs.length false) := by
  intro xs
  induction xs with
  | nil => intro _ _; rfl
  | cons u us ih =>
    intro copied h
    rw [List.mem_cons] at h
    push_neg at h
    obtain ⟨hu, hus⟩ := h
    have hu2 : ¬ u = "" := fun he => hu he.symm
    have hstep : isCopied "" copied u = some (false, copied) := by
      unfold isCopied
      rw [if_neg hu2, if_pos rfl]
    simp only [isCopiedAll, hstep, ih copied hus, Option.map_some]
    simp [List.replicate_succ]

theorem isCopiedAll_before {c : String} (hc : c ≠ "") :
    ∀ (ys zs : List String), "" ∉ ys → c ∉ ys → "" ∉ zs →
      isCopiedAll c true (ys ++ c :: zs)
        = some (List.replicate (ys.length + 1) true ++ List.replicate zs.length false) := by
  intro ys
  induction ys with
  | nil =>
    intro zs _ _ hzs
    have hstep : isCopied c true c = some (true, false) := by
      unfold isCopied
      rw [if_neg hc, if_neg hc, if_pos rfl, if_pos rfl]
    simp only [List.nil_append, isCopiedAll, hstep, isCopiedAll_done hc zs hzs,
      Option.map_some]
    simp [List.replicate_succ]
  | cons u us ih =>
    intro zs hy hcy hzs
    rw [List.mem_cons] at hy hcy
    push_neg at hy hcy
    obtain ⟨hu, hus⟩ := hy
    obtain ⟨hcu, hcus⟩ := hcy
    have hu2 : ¬ u = "" := fun he => hu he.symm
    have hcu2 : ¬ c = u := hcu
    have hstep : isCopied c true u = some (true, true) := by
      unfold isCopied
      rw [if_neg hu2, if_neg hc, if_pos rfl, if_neg hcu2]
    simp only [List.cons_append, isCopiedAll, hstep, Option.map_some, List.append_eq]
    rw [ih zs hus hcus hzs]
    simp [List.replicate_succ, List.length_cons]

theorem isCopiedAll_never {c : String} (hc : c ≠ "") :
    ∀ xs : List String, c ∉ xs → "" ∉ xs →
      isCopiedAll c true xs = some (List.replicate xs.length true) := by
  intro xs
  induction xs with
  | nil => intro _ _; rfl
  | cons u us ih =>
    intro hcx hx
    rw [List.mem_cons] at hcx hx
    push_neg at hcx hx
    obtain ⟨hcu, hcus⟩ := hcx
    obtain ⟨hu, hus⟩ := hx
    have hu2 : ¬ u = "" := fun he => hu he.symm
    have hstep : isCopied c true u = some (true, true) := by
      unfold isCopied
      rw [if_neg hu2, if_neg hc, if_pos rfl, if_neg hcu]
    simp only [isCopiedAll, hstep, ih hcus hus, Option.map_some]
    simp [List.replicate_succ]

/-! ### Claim C1 -/

/-- C1: the resume filter built from a non-empty checkpoint, applied in
replay order, answers skip = true for every item up to and including the
first item equal to the checkpoint and false afterwards; for checkpoint
"itemB" over [itemA, itemB, itemC, itemD] the calls answer
true, true, false, false; for an empty checkpoint every call answers false. -/
theorem claim1_resume_filter :
    (∀ (c : String) (ys zs : List String), c ≠ "" → "" ∉ ys → c ∉ ys → "" ∉ zs →
        runIsCopied c (ys ++ c :: zs)
          = some (List.replicate (ys.length + 1) true ++ List.replicate zs.length false))
    ∧ (∀ xs : List String, "" ∉ xs →
        runIsCopied "" xs = some (List.replicate xs.length false))
    ∧ runIsCopied "itemB" ["itemA", "itemB", "itemC", "itemD"]
        = some [true, true, false, false] := by
  refine ⟨fun c ys zs hc hy hcy hz => isCopiedAll_before hc ys zs hy hcy hz,
    fun xs hx => isCopiedAll_empty_checkpoint xs true hx, ?_⟩
  decide

/-- Witness for C1 at the concrete inputs of the claim. -/
theorem claim1_resume_filter_witness :
    runIsCopied "itemB" (["itemA"] ++ "itemB" :: ["itemC", "itemD"])
      = some (List.replicate (["itemA"].length + 1) true
          ++ List.replicate ["itemC", "itemD"].length false) :=
  claim1_resume_filter.1 "itemB" ["itemA"] ["itemC", "itemD"]
    (by decide) (by decide) (by decide) (by decide)

/-! ### Claim C10 -/

/-- C10: a resume filter built from a non-empty checkpoint that never occurs
in the replayed sequence classifies every item as already done: every call
answers skip = true. -/
theorem claim10_absent_checkpoint_skips_all :
    ∀ (c : String) (xs : List String), c ≠ "" → c ∉ xs → "" ∉ xs →
      runIsCopied c xs = some (List.replicate xs.length true) :=
  fun _ xs hc hcx hx => isCopiedAll_never hc xs hcx hx

/-- Witness for C10: checkpoint "gone" does not occur, every answer is true. -/
theorem claim10_absent_checkpoint_skips_all_witness :
    runIsCopied "gone" ["itemA", "itemB"]
      = some (List.replicate ["itemA", "itemB"].length true) :=
  claim10_absent_checkpoint_skips_all "gone" ["itemA", "itemB"]
    (by decide) (by decide) (by decide)

/-! ### Lemmas about session migration -/

theorem lookupStr_cons_self (k v : String) (rest : List (String × String)) :
    lookupStr ((k, v) :: rest) k = some v := by
  simp [lookupStr]

theorem listHasStr_iff_mem {l : List String} {a : String} :
    listHasStr l a = true ↔ a ∈ l := by
  induction l with
  | nil => simp [listHasStr]
  | cons x xs ih =>
    simp only [listHasStr, List.mem_cons]
    by_cases h : x = a
    · simp [h]
    · rw [if_neg h, ih]
      constructor
      · exact Or.inr
      · rintro (rfl | hm)
        · exact absurd rfl h
        · exact hm

theorem migrateLoop_foreign :
    ∀ (hs : List (String × String)) (ds : List String),
      (∀ p ∈ hs, p.2 ≠ "6") → (hs.map (·.1)).Nodup →
      (∀ sid ∈ hs.map (·.1), sid ∈ ds) →
      ∃ ds2 : List String,
        migrateLoop ⟨hs, ds⟩ (hs.map (·.1)) = some ⟨[], ds2⟩
          ∧ (∀ x ∈ ds2, x ∈ ds) ∧ (∀ sid ∈ hs.map (·.1), sid ∉ ds2) := by
  intro hs
  induction hs with
  | nil =>
    intro ds _ _ _
    exact ⟨ds, rfl, fun x hx => hx, by simp⟩
  | cons p hs ih =>
    intro ds hver hnd hmem
    obtain ⟨sid, ver⟩ := p
    simp only [List.map_cons, List.nodup_cons] at hnd
    obtain ⟨hsid_not, hndtail⟩ := hnd
    have hsidmem : sid ∈ ds := hmem sid (by simp)
    have hcont : listHasStr ds sid = true := listHasStr_iff_mem.mpr hsidmem
    have hload : loadSessionV6 ⟨(sid, ver) :: hs, ds⟩ sid = some ⟨sid, ver⟩ := by
      unfold loadSessionV6
      rw [lookupStr_cons_self]
      simp [hcont]
    have hv6 : ¬ ((⟨sid, ver⟩ : SessionV6).version = "6") := hver (sid, ver) (by simp)
    have hfilter : ((sid, ver) :: hs).filter (fun kv => !decide (kv.1 = sid)) = hs := by
      rw [List.filter_cons_of_neg (by simp)]
      rw [List.filter_eq_self]
      intro kv hkv
      simp only [Bool.not_eq_eq_eq_not, Bool.not_true, decide_eq_false_iff_not]
      intro hk
      exact hsid_not (hk ▸ List.mem_map_of_mem (·.1) hkv)
    have hrm : removeSession ⟨(sid, ver) :: hs, ds⟩ sid
        = ⟨hs, ds.filter (fun x => !decide (x = sid))⟩ := by
      unfold removeSession
      rw [hfilter]
    have hmem2 : ∀ id ∈ hs.map (·.1), id ∈ ds.filter (fun x => !decide (x = sid)) := by
      intro id hid
      rw [List.mem_filter]
      refine ⟨hmem id (by simp [hid]), ?_⟩
      simp only [Bool.not_eq_eq_eq_not, Bool.not_true, decide_eq_false_iff_not]
      intro he
      exact hsid_not (he ▸ hid)
    obtain ⟨ds2, hloop, hsub, hnotin⟩ :=
      ih (ds.filter (fun x => !decide (x = sid))) (fun q hq => hver q (by simp [hq]))
        hndtail hmem2
    refine ⟨ds2, ?_, ?_, ?_⟩
    · rw [List.map_cons]
      simp only [migrateLoop, hload]
      rw [if_neg hv6, hrm]
      exact hloop
    · intro x hx
      exact (List.mem_filter.mp (hsub x hx)).1
    · intro id hid
      rw [List.map_cons, List.mem_cons] at hid
      rcases hid with hid | hid
      · subst hid
        intro hin
        have := (List.mem_filter.mp (hsub id hin)).2
        simp at this
      · exact hnotin id hid

/-! ### Claim C2 -/

/-- C2 is false of the code: loadSessionV6 performs no format-version check
at all.  For a store holding one session "a" with stored version "5" (and
its data file), loading returns a session object fully populated from the
foreign-version header; nothing is removed by the load. -/
theorem claim2_counterexample :
    loadSessionV6 ⟨[("a", "5")], ["a"]⟩ "a" = some ⟨"a", "5"⟩
      ∧ ((⟨"a", "5"⟩ : SessionV6).version = "6" → False) := by
  decide

/-- C2 amended: loadSessionV6 itself checks no version and returns a session
populated from the stored header whatever its version tag; the removal of
foreign-version sessions is done by the separate migration pass
migrateSessionV5ToV6, which removes both artifacts of each enumerated
session whose stored version differs from "6" and stops entirely at the
first session whose version is "6".  When every stored session is foreign
(so the pass reaches them all), migration removes every header artifact and
the checked data artifacts, after which loading any of those ids reports
that no usable session exists. -/
theorem claim2_load_migration_amended :
    (∀ (st : SessionStore) (sid ver : String),
        lookupStr st.headers sid = some ver →
        listHasStr st.datas sid = true →
        loadSessionV6 st sid = some ⟨sid, ver⟩)
    ∧ (∀ st : SessionStore, (∀ p ∈ st.headers, p.2 ≠ "6") →
        (getSessionIDs st).Nodup → (∀ sid ∈ getSessionIDs st, sid ∈ st.datas) →
        ∃ st2 : SessionStore, migrateSessionV5ToV6 st = some st2 ∧ st2.headers = []
          ∧ (∀ sid ∈ getSessionIDs st, sid ∉ st2.datas)
          ∧ (∀ sid ∈ getSessionIDs st, loadSessionV6 st2 sid = none))
    ∧ (∀ (st : SessionStore) (sid0 : String) (rest : List (String × String)),
        st.headers = (sid0, "6") :: rest → sid0 ∈ st.datas →
        migrateSessionV5ToV6 st = some st) := by
  refine ⟨?_, ?_, ?_⟩
  · intro st sid ver hfind hcont
    unfold loadSessionV6
    rw [hfind]
    simp [hcont]
  · intro st hver hnd hmem
    obtain ⟨hs, ds⟩ := st
    obtain ⟨ds2, hloop, _, hnotin⟩ := migrateLoop_foreign hs ds hver hnd hmem
    refine ⟨⟨[], ds2⟩, hloop, rfl, hnotin, ?_⟩
    intro sid _
    rfl
  · intro st sid0 rest hhead hdata
    obtain ⟨hs, ds⟩ := st
    simp only at hhead hdata
    subst hhead
    have hcont : listHasStr ds sid0 = true := listHasStr_iff_mem.mpr hdata
    have hload : loadSessionV6 ⟨(sid0, "6") :: rest, ds⟩ sid0 = some ⟨sid0, "6"⟩ := by
      unfold loadSessionV6
      rw [lookupStr_cons_self]
      simp [hcont]
    unfold migrateSessionV5ToV6 getSessionIDs
    rw [List.map_cons]
    simp only [migrateLoop, hload]
    simp

/-- Witness for the amended C2 at a concrete one-session store of version
"5": migration removes both artifacts and a subsequent load finds nothing. -/
theorem claim2_load_migration_amended_witness :
    ∃ st2 : SessionStore, migrateSessionV5ToV6 ⟨[("a", "5")], ["a"]⟩ = some st2
      ∧ st2.headers = []
      ∧ (∀ sid ∈ getSessionIDs ⟨[("a", "5")], ["a"]⟩, sid ∉ st2.datas)
      ∧ (∀ sid ∈ getSessionIDs ⟨[("a", "5")], ["a"]⟩, loadSessionV6 st2 sid = none) :=
  claim2_load_migration_amended.2.1 ⟨[("a", "5")], ["a"]⟩
    (by decide) (by decide) (by decide)

/-! ### Claim C5 -/

/-- C5 is false of the code as stated for Close: Close reaches the header
write with no data-sync event at all in its trace (it closes the data file
instead), so a dirty data stream is never synced by Close before the header
is overwritten. -/
theorem claim5_counterexample :
    SessionEv.writeHeader ∈ sessionClose true
      ∧ SessionEv.syncData ∉ sessionClose true := by
  decide

/-- C5 amended: Save first syncs the data stream whenever it has unflushed
writes and reaches the header write only after that sync succeeded (a clean
session goes straight to the header write); Close instead closes the data
stream, and reaches the header write only after the close succeeded — in
both operations the data-stream effect precedes the header write, but Close
performs a close, not a sync. -/
theorem claim5_flush_order_amended :
    ∀ dirty syncOk closeOk : Bool,
      (dirty = true → SessionEv.writeHeader ∈ (sessionSave dirty syncOk).1 →
        (sessionSave dirty syncOk).1 = [SessionEv.syncData, SessionEv.writeHeader]
          ∧ syncOk = true)
      ∧ (dirty = false → (sessionSave dirty syncOk).1 = [SessionEv.writeHeader])
      ∧ (SessionEv.writeHeader ∈ sessionClose closeOk →
          sessionClose closeOk = [SessionEv.closeData, SessionEv.writeHeader]
            ∧ closeOk = true) := by
  decide

/-- Witness for the amended C5: a dirty save with a succeeding sync emits
the sync strictly before the header write. -/
theorem claim5_flush_order_amended_witness :
    (sessionSave true true).1 = [SessionEv.syncData, SessionEv.writeHeader]
      ∧ true = true :=
  (claim5_flush_order_amended true true true).1 rfl (by decide)

/-! ### The request model shared by both signature versions -/

/-- The parts of net/url URL the signing code reads or writes. -/
structure URLData where
  scheme : String
  host : String
  path : String
  rawQuery : String
deriving DecidableEq

/-- The per-request configuration the signing code reads. -/
structure Config where
  accessKeyID : String
  secretAccessKey : String
  region : String
  isVirtualHostedStyle : Bool
deriving DecidableEq

/-- The mutable request descriptor handed to the signer: method, URL, header
map, body, requested expiry (0 means header-signing) and configuration. -/
structure Request where
  method : String
  url : URLData
  header : Header
  body : String
  expires : Int
  config : Config
deriving DecidableEq

/-- The current UTC time, carried as the renderings the source computes from
time.Now().UTC(): http.TimeFormat, the iso8601 form 20060102T150405Z, the
date stamp 20060102, and the Unix epoch seconds. -/
structure TimeStamp where
  httpDate : String
  iso8601 : String
  dateStamp : String
  unix : Int

/-- The cryptographic primitives, as explicit parameters: HMAC-SHA256 (the
sumHMAC of the source), SHA-256, hex encoding, HMAC-SHA1 and base64
encoding.  Every theorem below holds for every choice of these functions. -/
structure CryptoPrims where
  sumHMAC : String → String → String
  sum256 : String → String
  hexEncode : String → String
  hmacSHA1 : String → String → String
  base64Encode : String → String

/-- Modelled from the spec: Config.isAnonymous of the vendored minio-go
request code is not under src (only its callers are).  §4.2/§7: pre-signing
"fails with a configuration error when no secret key is configured
(empty/anonymous credentials)" — credentials are anonymous unless both an
access key and a secret key are configured. -/
def Config.isAnonymous (c : Config) : Bool :=
  !(decide (c.accessKeyID ≠ "") && decide (c.secretAccessKey ≠ ""))

/-- Modelled from the spec: minio-go getURLEncodedPath (vendored common code
not under src).  §4.4 CanonicalPath: percent-encodes path characters outside
the unreserved set, leaving '/' and already-safe characters untouched.  (No
claim depends on path encoding; both sides of every comparison use it on
equal paths.) -/
def getURLEncodedPath (s : String) : String :=
  ⟨(s.data.map (fun c =>
      if isUnreservedQueryChar c || c = '/' then [c]
      else ['%', hexDigitChar (c.toNat / 16 % 16), hexDigitChar (c.toNat % 16)])).flatten⟩

/-- Models net/url URL.String for the scheme://host/path?query URLs the
signers return. -/
def urlString (u : URLData) : String :=
  u.scheme ++ "://" ++ u.host ++ getURLEncodedPath u.path
    ++ (if u.rawQuery = "" then "" else "?" ++ u.rawQuery)

/-! ### Signature V4 (vendored request-signature-v4.go) -/

/-- The signature and API constant authHeader of the V4 source. -/
def authHeader : String := "AWS4-HMAC-SHA256"

/-- getSigningKey: four chained HMACs seeded by "AWS4"+secret, folding in
the date stamp, the region, "s3" and "aws4_request", in that order. -/
def getSigningKey (cp : CryptoPrims) (secret region : String) (t : TimeStamp) : String :=
  let date := cp.sumHMAC ("AWS4" ++ secret) t.dateStamp
  let regionbytes := cp.sumHMAC date region
  let service := cp.sumHMAC regionbytes "s3"
  cp.sumHMAC service "aws4_request"

/-- getSignature: final signature in hexadecimal form. -/
def getSignature (cp : CryptoPrims) (signingKey stringToSign : String) : String :=
  cp.hexEncode (cp.sumHMAC signingKey stringToSign)

/-- getScope: date stamp / region / s3 / aws4_request. -/
def getScope (region : String) (t : TimeStamp) : String :=
  String.intercalate "/" [t.dateStamp, region, "s3", "aws4_request"]

/-- getCredential: access key / scope. -/
def getCredential (accessKeyID region : String) (t : TimeStamp) : String :=
  accessKeyID ++ "/" ++ getScope region t

/-- getHashedPayload: the UNSIGNED-PAYLOAD sentinel when pre-signing
(non-zero expiry), otherwise the X-Amz-Content-Sha256 header value. -/
def getHashedPayload (r : Request) : String :=
  if r.expires ≠ 0 then "UNSIGNED-PAYLOAD"
  else headerGet r.header "X-Amz-Content-Sha256"

/-- Membership of the fixed deny-list map ignoredHeaders of the V4 source:
Authorization, Content-Type, Content-Length, User-Agent. -/
def isIgnoredHeader (k : String) : Bool :=
  decide (k = "Authorization") || decide (k = "Content-Type")
    || decide (k = "Content-Length") || decide (k = "User-Agent")

/-- The headers that survive the ignoredHeaders check (membership tested on
the canonicalised key, as the source does). -/
def keptHeaders (h : Header) : Header :=
  h.filter (fun kv => !(isIgnoredHeader (canonicalHeaderKey kv.1)))

/-- The kept headers with lower-cased names, in map iteration order: the
source fills vals[strings.ToLower(k)] = vv while collecting the names. -/
def loweredHeaders (h : Header) : Header :=
  (keptHeaders h).map (fun kv => (strLower kv.1, kv.2))

/-- The value list the vals map holds for a lowered name: the last write
wins, as for a Go map filled in iteration order. -/
def headerVals (lh : Header) (k : String) : List String :=
  (lookupVals lh.reverse k).getD []

/-- The sorted line names of the canonical header block: the lowered kept
names plus the always-appended "host". -/
def canonHeaderNames (h : Header) : List String :=
  sortStrings ((loweredHeaders h).map (·.1) ++ ["host"])

/-- Comma-joined header values (the idx > 0 comma of the source loop). -/
def commaJoin (vs : List String) : String := String.intercalate "," vs

/-- One line of the canonical header block; on the "host" line the source
writes the request URL host and then falls through to the value loop. -/
def canonHeaderLine (lh : Header) (host : String) (k : String) : String :=
  if k = "host" then "host:" ++ host ++ commaJoin (headerVals lh "host") ++ "\n"
  else k ++ ":" ++ commaJoin (headerVals lh k) ++ "\n"

/-- getCanonicalHeaders: the canonical header block of the request. -/
def getCanonicalHeaders (r : Request) : String :=
  String.join ((canonHeaderNames r.header).map
    (canonHeaderLine (loweredHeaders r.header) r.url.host))

/-- getSignedHeaders: semicolon-joined sorted lower-cased kept names plus
"host". -/
def getSignedHeaders (r : Request) : String :=
  String.intercalate ";"
    (sortStrings ((keptHeaders r.header).map (fun kv => strLower kv.1) ++ ["host"]))

/-- The canonical re-encoding getCanonicalRequest stores back into the URL:
Query().Encode() with every + replaced by %20. -/
def canonicalizeRawQuery (q : String) : String :=
  replacePlus (valuesEncode (parseQuery q))

/-- getCanonicalRequest: overwrites the URL raw query with its canonical
re-encoding, then joins method, encoded path, raw query, canonical headers,
signed headers and hashed payload with newlines.  Returns the mutated
request together with the canonical request string. -/
def getCanonicalRequest (r : Request) : Request × String :=
  let r2 := { r with url := { r.url with rawQuery := canonicalizeRawQuery r.url.rawQuery } }
  (r2, String.intercalate "\n"
    [r2.method, getURLEncodedPath r2.url.path, r2.url.rawQuery,
     getCanonicalHeaders r2, getSignedHeaders r2, getHashedPayload r2])

/-- getStringToSignV4. -/
def getStringToSignV4 (cp : CryptoPrims) (region canonicalRequest : String)
    (t : TimeStamp) : String :=
  authHeader ++ "\n" ++ t.iso8601 ++ "\n" ++ getScope region t ++ "\n"
    ++ cp.hexEncode (cp.sum256 canonicalRequest)

/-- The query string a successful PreSignV4 leaves in the URL: the query
with the five injected X-Amz-* parameters, re-encoded canonically by the
getCanonicalRequest step, with X-Amz-Signature appended.  (The two raw-query
mutations of the source, composed; the request PreSignV4 returns is the
input with exactly this raw query.) -/
def preSignV4RawQuery (cp : CryptoPrims) (t : TimeStamp) (r : Request) : String :=
  let credential := getCredential r.config.accessKeyID r.config.region t
  let signingKey := getSigningKey cp r.config.secretAccessKey r.config.region t
  let signedHeaders := getSignedHeaders r
  let query := parseQuery r.url.rawQuery
  let query := valuesSet query "X-Amz-Algorithm" authHeader
  let query := valuesSet query "X-Amz-Date" t.iso8601
  let query := valuesSet query "X-Amz-Expires" (toString r.expires)
  let query := valuesSet query "X-Amz-SignedHeaders" signedHeaders
  let query := valuesSet query "X-Amz-Credential" credential
  let r1 := { r with url := { r.url with rawQuery := valuesEncode query } }
  let rc := getCanonicalRequest r1
  let stringToSign := getStringToSignV4 cp r.config.region rc.2 t
  let signature := getSignature cp signingKey stringToSign
  rc.1.url.rawQuery ++ "&X-Amz-Signature=" ++ signature

/-- PreSignV4: rejects anonymous credentials first; injects the five
X-Amz-* query parameters, re-encodes the query, signs the canonical request
and appends X-Amz-Signature to the raw query — the raw query is the only
field the source mutates.  Returns the mutated request and the URL string. -/
def PreSignV4 (cp : CryptoPrims) (t : TimeStamp) (r : Request) :
    Except String (Request × String) :=
  if r.config.isAnonymous then
    .error "presigning cannot be done with anonymous credentials"
  else
    let r3 := { r with url := { r.url with rawQuery := preSignV4RawQuery cp t r } }
    .ok (r3, urlString r3.url)

/-- The authorization header value SignV4 computes for the request r1 that
already carries X-Amz-Date: scheme, credential, signed headers and the
signature of the canonical request. -/
def signV4AuthValue (cp : CryptoPrims) (t : TimeStamp) (r1 : Request) : String :=
  String.intercalate ", "
    [authHeader ++ " Credential=" ++ getCredential r1.config.accessKeyID r1.config.region t,
     "SignedHeaders=" ++ getSignedHeaders r1,
     "Signature=" ++ getSignature cp
       (getSigningKey cp r1.config.secretAccessKey r1.config.region t)
       (getStringToSignV4 cp r1.config.region (getCanonicalRequest r1).2 t)]

/-- SignV4: sets X-Amz-Date (unconditionally), signs the canonical request
(whose computation stores the canonical re-encoding of the query back into
the URL) and sets the Authorization header.  The presign flag of the source
is not read by the body. -/
def SignV4 (cp : CryptoPrims) (t : TimeStamp) (_presign : Bool) (r : Request) : Request :=
  let r1 := { r with header := headerSet r.header "X-Amz-Date" t.iso8601 }
  { r1 with
    url := { r1.url with rawQuery := canonicalizeRawQuery r1.url.rawQuery },
    header := headerSet r1.header "Authorization" (signV4AuthValue cp t r1) }

/-! ### Signature V2 (src/unnamed/part_001) -/

/-- The path the V2 code canonicalises: for virtual-hosted-style requests
the bucket is recovered by trimming the region host suffix (the regions map
of the vendored common code is an explicit parameter; no match writes
nothing), otherwise the URL path. -/
def v2CanonicalPath (regions : List (String × String)) (r : Request) : String :=
  if r.config.isVirtualHostedStyle then
    match regions.find? (fun kv => decide (kv.2 = r.config.region)) with
    | some kv => getURLEncodedPath ("/" ++ strTrimSuffix r.url.host ("." ++ kv.1) ++ r.url.path)
    | none => ""
  else getURLEncodedPath r.url.path

/-- writeDefaultHeaders: method, Content-MD5, Content-Type and Date, each
newline-terminated. -/
def writeDefaultHeaders (r : Request) : String :=
  r.method ++ "\n" ++ headerGet r.header "Content-MD5" ++ "\n"
    ++ headerGet r.header "Content-Type" ++ "\n" ++ headerGet r.header "Date" ++ "\n"

/-- True when the lower-cased name begins with x-amz (strings.HasPrefix of
the source). -/
def strStartsXAmz (s : String) : Bool :=
  match s.data with
  | 'x' :: '-' :: 'a' :: 'm' :: 'z' :: _ => true
  | _ => false

/-- The x-amz headers with lower-cased names, in map iteration order. -/
def amzLoweredHeaders (h : Header) : Header :=
  (h.filter (fun kv => strStartsXAmz (strLower kv.1))).map (fun kv => (strLower kv.1, kv.2))

/-- writeCanonicalizedHeaders: sorted lower-cased x-amz names, each line
name:values (comma separated, embedded newlines passed through verbatim),
newline terminated. -/
def writeCanonicalizedHeaders (r : Request) : String :=
  let lh := amzLoweredHeaders r.header
  String.join ((sortStrings (lh.map (·.1))).map
    (fun k => k ++ ":" ++ commaJoin (headerVals lh k) ++ "\n"))

/-- The allow-list resourceList of the V2 source, in its literal order (the
source sorts it before use). -/
def resourceList : List String :=
  ["acl", "location", "logging", "notification", "partNumber", "policy",
   "response-content-type", "response-content-language", "response-expires",
   "response-cache-control", "response-content-disposition",
   "response-content-encoding", "requestPayment", "torrent", "uploadId",
   "uploads", "versionId", "versioning", "versions", "website"]

/-- The loop of writeCanonicalizedResource over the sorted allow-list: n
counts matches; the first match writes the question mark, the rest write
ampersands; a parameter with a non-empty first value is rendered as
key=escaped value, otherwise as the bare key. -/
def resourceQueryLoop (vals : Values) : List String → Nat → String
  | [], _ => ""
  | res :: rest, n =>
    match valuesGetList vals res with
    | [] => resourceQueryLoop vals rest n
    | v0 :: _ =>
      (if n + 1 = 1 then "?" else "&") ++ res
        ++ (if v0 = "" then "" else "=" ++ queryEscape v0)
        ++ resourceQueryLoop vals rest (n + 1)

/-- The query suffix writeCanonicalizedResource appends: nothing for an
empty raw query, otherwise the allow-list loop over the parsed query. -/
def canonicalResourceQuerySuffix (rawQuery : String) : String :=
  if rawQuery = "" then ""
  else resourceQueryLoop (parseQuery rawQuery) (sortStrings resourceList) 0

/-- writeCanonicalizedResource: the canonical path followed by the
allow-listed query suffix. -/
def writeCanonicalizedResource (regions : List (String × String)) (r : Request) : String :=
  v2CanonicalPath regions r ++ canonicalResourceQuerySuffix r.url.rawQuery

/-- getStringToSignV2: default headers, canonicalized protocol headers,
canonicalized resource. -/
def getStringToSignV2 (regions : List (String × String)) (r : Request) : String :=
  writeDefaultHeaders r ++ writeCanonicalizedHeaders r ++ writeCanonicalizedResource regions r

/-- The Date-defaulting both V2 entry points perform: set the Date header to
the formatted current time when it is absent. -/
def setDateIfAbsent (t : TimeStamp) (r : Request) : Request :=
  if headerGet r.header "Date" = "" then
    { r with header := headerSet r.header "Date" t.httpDate }
  else r

/-- The authorization header value SignV2 computes: AWS access:signature
over the V2 string-to-sign. -/
def signV2AuthValue (cp : CryptoPrims) (regions : List (String × String))
    (r1 : Request) : String :=
  "AWS " ++ r1.config.accessKeyID ++ ":"
    ++ cp.base64Encode (cp.hmacSHA1 r1.config.secretAccessKey (getStringToSignV2 regions r1))

/-- SignV2: defaults the Date header, signs the V2 string-to-sign with
HMAC-SHA1 and sets the Authorization header AWS access:signature. -/
def SignV2 (cp : CryptoPrims) (t : TimeStamp) (regions : List (String × String))
    (r : Request) : Request :=
  let r1 := setDateIfAbsent t r
  { r1 with header := headerSet r1.header "Authorization" (signV2AuthValue cp regions r1) }

/-- The query url.Values a successful PreSignV2 encodes into the URL: the
parsed query with the access-key parameter (GoogleAccessId for region
google, AWSAccessKeyId otherwise), Expires and Signature set. -/
def preSignV2Query (cp : CryptoPrims) (t : TimeStamp) (regions : List (String × String))
    (r1 : Request) : Values :=
  let path := v2CanonicalPath regions r1
  let epochExpires := t.unix + r1.expires
  let stringToSign := r1.method ++ "\n\n\n" ++ toString epochExpires ++ "\n" ++ path
  let signature := cp.base64Encode (cp.hmacSHA1 r1.config.secretAccessKey stringToSign)
  let query := parseQuery r1.url.rawQuery
  let query := if r1.config.region = "google"
    then valuesSet query "GoogleAccessId" r1.config.accessKeyID
    else valuesSet query "AWSAccessKeyId" r1.config.accessKeyID
  let query := valuesSet query "Expires" (toString epochExpires)
  valuesSet query "Signature" signature

/-- PreSignV2: rejects anonymous credentials first; defaults the Date
header, signs method-newlines-expiry-path with HMAC-SHA1 and embeds the
access key (GoogleAccessId for region google), Expires and Signature into
the re-encoded query.  Returns the mutated request and the URL string. -/
def PreSignV2 (cp : CryptoPrims) (t : TimeStamp) (regions : List (String × String))
    (r : Request) : Except String (Request × String) :=
  if r.config.isAnonymous then
    .error "presigning cannot be done with anonymous credentials"
  else
    let r1 := setDateIfAbsent t r
    let r2 := { r1 with url := { r1.url with
      rawQuery := valuesEncode (preSignV2Query cp t regions r1) } }
    .ok (r2, urlString r2.url)

/-! ### Shared concrete fixtures for counterexamples and witnesses -/

/-- A concrete, injective-by-construction choice of the crypto primitives,
used only to evaluate counterexamples and witnesses. -/
def sampleCrypto : CryptoPrims :=
  { sumHMAC := fun k m => "H(" ++ k ++ "," ++ m ++ ")"
    sum256 := fun m => "S(" ++ m ++ ")"
    hexEncode := fun m => "X(" ++ m ++ ")"
    hmacSHA1 := fun k m => "h(" ++ k ++ "," ++ m ++ ")"
    base64Encode := fun m => "B(" ++ m ++ ")" }

/-- A concrete timestamp for counterexamples and witnesses. -/
def sampleTime : TimeStamp :=
  { httpDate := "HTTPDATE", iso8601 := "20150101T000000Z",
    dateStamp := "20150101", unix := 1000 }

/-- A concrete non-anonymous configuration. -/
def sampleConfig : Config :=
  { accessKeyID := "AK", secretAccessKey := "SK", region := "",
    isVirtualHostedStyle := false }

/-- A pre-sign request carrying no Date header. -/
def presignDateReq : Request :=
  { method := "GET", url := { scheme := "http", host := "h", path := "/", rawQuery := "" },
    header := [], body := "", expires := 100, config := sampleConfig }

/-- A header-signing request whose raw query is not canonically encoded. -/
def signQueryReq : Request :=
  { method := "GET", url := { scheme := "http", host := "h", path := "/", rawQuery := "b=2&a=1" },
    header := [], body := "", expires := 0, config := sampleConfig }

/-- Frame facts of the Date-defaulting step: only the header changes. -/
theorem setDateIfAbsent_frame (t : TimeStamp) (r : Request) :
    (setDateIfAbsent t r).method = r.method ∧ (setDateIfAbsent t r).url = r.url
      ∧ (setDateIfAbsent t r).body = r.body ∧ (setDateIfAbsent t r).expires = r.expires
      ∧ (setDateIfAbsent t r).config = r.config := by
  unfold setDateIfAbsent
  split <;> exact ⟨rfl, rfl, rfl, rfl, rfl⟩

/-! ### Claim C3 -/

/-- C3 is false of the code as stated: PreSignV2 mutates the header set of a
request that carries no Date header — the successful pre-signing of a
Date-less request returns a request whose header set gained a Date entry. -/
theorem claim3_counterexample :
    (PreSignV2 sampleCrypto sampleTime [] presignDateReq).toOption.map (fun o => o.1.header)
      = some [("Date", ["HTTPDATE"])]
    ∧ presignDateReq.header = ([] : Header) := by
  decide

/-- C3 amended: PreSignV4 leaves the header set (and the method, body,
expiry, configuration and URL apart from its raw query) unchanged, mutating
only the raw query; PreSignV2 is the same except that it first adds a Date
header when none is present (an existing Date header is left alone). -/
theorem claim3_presign_frame_amended :
    (∀ (cp : CryptoPrims) (t : TimeStamp) (r : Request),
        r.config.isAnonymous = false →
        ∃ out : Request × String, PreSignV4 cp t r = .ok out
          ∧ out.1.header = r.header ∧ out.1.method = r.method ∧ out.1.body = r.body
          ∧ out.1.expires = r.expires ∧ out.1.config = r.config
          ∧ out.1.url.scheme = r.url.scheme ∧ out.1.url.host = r.url.host
          ∧ out.1.url.path = r.url.path)
    ∧ (∀ (cp : CryptoPrims) (t : TimeStamp) (regions : List (String × String)) (r : Request),
        r.config.isAnonymous = false →
        ∃ out : Request × String, PreSignV2 cp t regions r = .ok out
          ∧ out.1.header = (setDateIfAbsent t r).header
          ∧ (headerGet r.header "Date" ≠ "" → out.1.header = r.header)
          ∧ (headerGet r.header "Date" = "" →
              out.1.header = headerSet r.header "Date" t.httpDate)
          ∧ out.1.method = r.method ∧ out.1.body = r.body
          ∧ out.1.expires = r.expires ∧ out.1.config = r.config
          ∧ out.1.url.scheme = r.url.scheme ∧ out.1.url.host = r.url.host
          ∧ out.1.url.path = r.url.path) := by
  constructor
  · intro cp t r ha
    unfold PreSignV4
    rw [if_neg (by simp [ha])]
    exact ⟨_, rfl, rfl, rfl, rfl, rfl, rfl, rfl, rfl, rfl⟩
  · intro cp t regions r ha
    unfold PreSignV2
    rw [if_neg (by simp [ha])]
    refine ⟨_, rfl, rfl, ?_, ?_, (setDateIfAbsent_frame t r).1,
      (setDateIfAbsent_frame t r).2.2.1, (setDateIfAbsent_frame t r).2.2.2.1,
      (setDateIfAbsent_frame t r).2.2.2.2, ?_, ?_, ?_⟩
    · intro hd
      unfold setDateIfAbsent
      rw [if_neg hd]
    · intro hd
      unfold setDateIfAbsent
      rw [if_pos hd]
    · rw [(setDateIfAbsent_frame t r).2.1]
    · rw [(setDateIfAbsent_frame t r).2.1]
    · rw [(setDateIfAbsent_frame t r).2.1]

/-- Witness for the amended C3: a concrete non-anonymous V4 pre-signing
leaves the header set untouched. -/
theorem claim3_presign_frame_amended_witness :
    ∃ out : Request × String, PreSignV4 sampleCrypto sampleTime presignDateReq = .ok out
      ∧ out.1.header = presignDateReq.header
      ∧ out.1.method = presignDateReq.method ∧ out.1.body = presignDateReq.body
      ∧ out.1.expires = presignDateReq.expires ∧ out.1.config = presignDateReq.config
      ∧ out.1.url.scheme = presignDateReq.url.scheme
      ∧ out.1.url.host = presignDateReq.url.host
      ∧ out.1.url.path = presignDateReq.url.path :=
  claim3_presign_frame_amended.1 sampleCrypto sampleTime presignDateReq (by decide)

/-! ### Claim C4 -/

/-- C4 is false of the code as stated: SignV4 mutates the request URL — its
getCanonicalRequest step stores the canonical re-encoding of the query back
into the URL, so signing a request whose raw query is b=2&a=1 leaves the
URL carrying a=1&b=2. -/
theorem claim4_counterexample :
    (SignV4 sampleCrypto sampleTime false signQueryReq).url.rawQuery = "a=1&b=2"
      ∧ signQueryReq.url.rawQuery = "b=2&a=1" := by
  decide

/-- C4 amended: SignV2 leaves the URL (and method, body, expiry,
configuration) unchanged and only sets headers: Date when absent, then the
authorization header.  SignV4 also only sets headers (X-Amz-Date is set
unconditionally, then the authorization header) and never touches the body,
but it additionally rewrites the URL raw query to its canonical
re-encoding; scheme, host and path are unchanged. -/
theorem claim4_header_signing_amended :
    (∀ (cp : CryptoPrims) (t : TimeStamp) (regions : List (String × String)) (r : Request),
        (SignV2 cp t regions r).url = r.url
          ∧ (SignV2 cp t regions r).method = r.method
          ∧ (SignV2 cp t regions r).body = r.body
          ∧ (SignV2 cp t regions r).expires = r.expires
          ∧ (SignV2 cp t regions r).config = r.config
          ∧ ∃ auth, (SignV2 cp t regions r).header
              = headerSet (setDateIfAbsent t r).header "Authorization" auth)
    ∧ (∀ (cp : CryptoPrims) (t : TimeStamp) (presign : Bool) (r : Request),
        (SignV4 cp t presign r).method = r.method
          ∧ (SignV4 cp t presign r).body = r.body
          ∧ (SignV4 cp t presign r).expires = r.expires
          ∧ (SignV4 cp t presign r).config = r.config
          ∧ (SignV4 cp t presign r).url.scheme = r.url.scheme
          ∧ (SignV4 cp t presign r).url.host = r.url.host
          ∧ (SignV4 cp t presign r).url.path = r.url.path
          ∧ (SignV4 cp t presign r).url.rawQuery = canonicalizeRawQuery r.url.rawQuery
          ∧ ∃ auth, (SignV4 cp t presign r).header
              = headerSet (headerSet r.header "X-Amz-Date" t.iso8601) "Authorization" auth) := by
  constructor
  · intro cp t regions r
    exact ⟨(setDateIfAbsent_frame t r).2.1, (setDateIfAbsent_frame t r).1,
      (setDateIfAbsent_frame t r).2.2.1, (setDateIfAbsent_frame t r).2.2.2.1,
      (setDateIfAbsent_frame t r).2.2.2.2, ⟨_, rfl⟩⟩
  · intro cp t presign r
    exact ⟨rfl, rfl, rfl, rfl, rfl, rfl, rfl, rfl, ⟨_, rfl⟩⟩

/-! ### Claim C6 -/

/-- C6: pre-signing with anonymous credentials fails, in both scheme
versions, with the configuration error of the source, before any mutation
of the request (the error result carries no request), and independently of
the cryptographic primitives — no HMAC computation can influence the
outcome. -/
theorem claim6_anonymous_presign_rejected :
    ∀ (cp cp2 : CryptoPrims) (t : TimeStamp) (regions : List (String × String)) (r : Request),
      r.config.isAnonymous = true →
      PreSignV4 cp t r = .error "presigning cannot be done with anonymous credentials"
        ∧ PreSignV2 cp t regions r
            = .error "presigning cannot be done with anonymous credentials"
        ∧ PreSignV4 cp t r = PreSignV4 cp2 t r
        ∧ PreSignV2 cp t regions r = PreSignV2 cp2 t regions r := by
  intro cp cp2 t regions r ha
  have h4 : ∀ cp3 : CryptoPrims, PreSignV4 cp3 t r
      = .error "presigning cannot be done with anonymous credentials" := by
    intro cp3
    unfold PreSignV4
    rw [if_pos ha]
  have h2 : ∀ cp3 : CryptoPrims, PreSignV2 cp3 t regions r
      = .error "presigning cannot be done with anonymous credentials" := by
    intro cp3
    unfold PreSignV2
    rw [if_pos ha]
  exact ⟨h4 cp, h2 cp, (h4 cp).trans (h4 cp2).symm, (h2 cp).trans (h2 cp2).symm⟩

/-- Witness for C6 at a concrete anonymous configuration. -/
theorem claim6_anonymous_presign_rejected_witness :
    PreSignV4 sampleCrypto sampleTime
        { presignDateReq with config := { sampleConfig with secretAccessKey := "" } }
      = .error "presigning cannot be done with anonymous credentials"
    ∧ PreSignV2 sampleCrypto sampleTime []
        { presignDateReq with config := { sampleConfig with secretAccessKey := "" } }
      = .error "presigning cannot be done with anonymous credentials"
    ∧ PreSignV4 sampleCrypto sampleTime
        { presignDateReq with config := { sampleConfig with secretAccessKey := "" } }
      = PreSignV4 sampleCrypto sampleTime
        { presignDateReq with config := { sampleConfig with secretAccessKey := "" } }
    ∧ PreSignV2 sampleCrypto sampleTime []
        { presignDateReq with config := { sampleConfig with secretAccessKey := "" } }
      = PreSignV2 sampleCrypto sampleTime []
        { presignDateReq with config := { sampleConfig with secretAccessKey := "" } } :=
  claim6_anonymous_presign_rejected sampleCrypto sampleCrypto sampleTime []
    { presignDateReq with config := { sampleConfig with secretAccessKey := "" } } (by decide)

/-! ### String joining lemmas -/

theorem strFoldlAppend (as : List String) :
    ∀ x : String, List.foldl (fun r s => r ++ s) x as
      = x ++ List.foldl (fun r s => r ++ s) "" as := by
  induction as with
  | nil => intro x; exact (String.append_empty x).symm
  | cons b bs ih =>
    intro x
    simp only [List.foldl_cons]
    rw [ih (x ++ b), ih ("" ++ b), String.empty_append, String.append_assoc]

theorem strJoin_cons (a : String) (as : List String) :
    String.join (a :: as) = a ++ String.join as := by
  simp only [String.join, List.foldl_cons]
  rw [strFoldlAppend as ("" ++ a), String.empty_append]

/-! ### Claim C8 -/

/-- How one allow-listed parameter appears in the canonical resource, per
the claim: the bare key when its first value is empty, key=value (escaped)
otherwise. -/
def renderResource (vals : Values) (res : String) : String :=
  match valuesGetList vals res with
  | v0 :: _ => if v0 = "" then res else res ++ "=" ++ queryEscape v0
  | [] => res

/-- Plain &-joining of rendered parameters, per the claim. -/
def ampJoin : List String → String
  | [] => ""
  | [x] => x
  | x :: xs => x ++ "&" ++ ampJoin xs

/-- The query suffix as the specification sentence describes it: only the
parameters of the sorted allow-list that occur in the query, each rendered
as key or key=value, joined by ampersands, prefixed by a question mark on
the first match, everything else omitted. -/
def resourceQuerySuffixPerSpec (rawQuery : String) : String :=
  match (sortStrings resourceList).filter
      (fun res => !(valuesGetList (parseQuery rawQuery) res).isEmpty) with
  | [] => ""
  | r :: rs => "?" ++ ampJoin ((r :: rs).map (renderResource (parseQuery rawQuery)))

theorem ampJoin_cons (x : String) (xs : List String) :
    ampJoin (x :: xs) = x ++ String.join (xs.map (fun y => "&" ++ y)) := by
  induction xs generalizing x with
  | nil => exact (String.append_empty x).symm
  | cons y ys ih =>
    show x ++ "&" ++ ampJoin (y :: ys) = _
    rw [ih y]
    simp only [List.map_cons, strJoin_cons, String.append_assoc]

theorem resourceQueryLoop_pos (vals : Values) :
    ∀ (l : List String) (n : Nat), n ≠ 0 →
      resourceQueryLoop vals l n
        = String.join ((l.filter (fun res => !(valuesGetList vals res).isEmpty)).map
            (fun res => "&" ++ renderResource vals res)) := by
  intro l
  induction l with
  | nil => intro n _; rfl
  | cons res rest ih =>
    intro n hn
    cases hv : valuesGetList vals res with
    | nil =>
      simp only [resourceQueryLoop, hv]
      rw [ih n hn, List.filter_cons_of_neg (by simp [hv])]
    | cons v0 vs =>
      simp only [resourceQueryLoop, hv]
      rw [if_neg (by omega), ih (n + 1) (by omega),
        List.filter_cons_of_pos (by simp [hv]), List.map_cons, strJoin_cons]
      simp only [renderResource, hv]
      by_cases hv0 : v0 = ""
      · simp [hv0, String.append_assoc, String.append_empty]
      · simp [hv0, String.append_assoc]

theorem resourceQueryLoop_zero (vals : Values) :
    ∀ l : List String,
      resourceQueryLoop vals l 0
        = match (l.filter (fun res => !(valuesGetList vals res).isEmpty)) with
          | [] => ""
          | r :: rs => "?" ++ renderResource vals r
              ++ String.join (rs.map (fun res => "&" ++ renderResource vals res)) := by
  intro l
  induction l with
  | nil => rfl
  | cons res rest ih =>
    cases hv : valuesGetList vals res with
    | nil =>
      simp only [resourceQueryLoop, hv]
      rw [ih, List.filter_cons_of_neg (by simp [hv])]
    | cons v0 vs =>
      simp only [resourceQueryLoop, hv]
      simp only [if_true]
      rw [resourceQueryLoop_pos vals rest 1 (by omega),
        List.filter_cons_of_pos (by simp [hv])]
      simp only [renderResource, hv]
      by_cases hv0 : v0 = ""
      · simp [hv0, String.append_assoc, String.append_empty]
      · simp [hv0, String.append_assoc]

/-- C8: the V2 canonicalized resource's query suffix is exactly the
claim's rendering — only allow-listed parameters, each as key or
key=value, &-joined, ?-prefixed on the first match, everything else
omitted — and on the concrete query uploadId=abc&foo=bar it contributes
uploadId=abc only, never foo. -/
theorem claim8_v2_resource_allowlist :
    (∀ rawQuery : String,
        canonicalResourceQuerySuffix rawQuery = resourceQuerySuffixPerSpec rawQuery)
    ∧ canonicalResourceQuerySuffix "uploadId=abc&foo=bar" = "?uploadId=abc" := by
  constructor
  · intro q
    by_cases hq : q = ""
    · subst hq
      decide
    · unfold canonicalResourceQuerySuffix resourceQuerySuffixPerSpec
      rw [if_neg hq, resourceQueryLoop_zero]
      cases hf : (sortStrings resourceList).filter
          (fun res => !(valuesGetList (parseQuery q) res).isEmpty) with
      | nil => rfl
      | cons r rs =>
        simp only [List.map_cons, ampJoin_cons, List.map_map, String.append_assoc]
        rfl
  · decide

/-! ### Claim C7: the canonical header block -/

/-- Membership of the deny-list as the specification sentence states it:
on the lower-cased header name. -/
def isDenyLowerName (k : String) : Bool :=
  decide (k = "authorization") || decide (k = "content-type")
    || decide (k = "content-length") || decide (k = "user-agent")

/-- The headers the specification sentence keeps: everything whose
lower-cased name is outside the fixed deny-list. -/
def keptPerSpec (h : Header) : Header :=
  h.filter (fun kv => !(isDenyLowerName (strLower kv.1)))

/-- The V4 canonical header block as the specification sentence describes
it: lower-case the names, drop exactly the deny-listed four, always add a
host line carrying the URL host, sort the names, comma-join the values of a
name, and end every line — also one with an empty value list — with a
newline. -/
def canonicalHeadersPerSpec (h : Header) (host : String) : String :=
  String.join
    ((sortStrings ("host" :: (keptPerSpec h).map (fun kv => strLower kv.1))).map
      (fun k =>
        if k = "host" then "host:" ++ host ++ "\n"
        else k ++ ":"
          ++ commaJoin ((lookupVals ((keptPerSpec h).map (fun kv => (strLower kv.1, kv.2))) k).getD [])
          ++ "\n"))

theorem canonKey_eq_fixed (k cKey cLow : String)
    (h0 : strLower cLow = cLow) (h1 : strLower cKey = cLow)
    (h2 : canonicalHeaderKey cLow = cKey) :
    canonicalHeaderKey k = cKey ↔ strLower k = cLow := by
  constructor
  · intro h
    have h3 := strLower_canonicalHeaderKey k
    rw [h] at h3
    rw [← h3, h1]
  · intro h
    have h4 : canonicalHeaderKey k = canonicalHeaderKey cLow := by
      apply canonicalHeaderKey_congr
      rw [h, h0]
    rw [h4, h2]

/-- The deny-list test of the source (canonical key against the four map
keys) agrees with the deny-list test of the specification (lower-cased name
against the four lower-cased names). -/
theorem ignored_eq_denyLower (k : String) :
    isIgnoredHeader (canonicalHeaderKey k) = isDenyLowerName (strLower k) := by
  unfold isIgnoredHeader isDenyLowerName
  rw [decide_eq_decide.mpr
      (canonKey_eq_fixed k "Authorization" "authorization" (by decide) (by decide) (by decide)),
    decide_eq_decide.mpr
      (canonKey_eq_fixed k "Content-Type" "content-type" (by decide) (by decide) (by decide)),
    decide_eq_decide.mpr
      (canonKey_eq_fixed k "Content-Length" "content-length" (by decide) (by decide) (by decide)),
    decide_eq_decide.mpr
      (canonKey_eq_fixed k "User-Agent" "user-agent" (by decide) (by decide) (by decide))]

theorem kept_eq_keptPerSpec (h : Header) : keptHeaders h = keptPerSpec h := by
  unfold keptHeaders keptPerSpec
  apply List.filter_congr
  intro kv _
  rw [ignored_eq_denyLower]

theorem lookupVals_eq_none {l : List (String × List String)} {k : String}
    (h : ∀ kv ∈ l, kv.1 ≠ k) : lookupVals l k = none := by
  induction l with
  | nil => rfl
  | cons kv rest ih =>
    unfold lookupVals
    rw [if_neg (h kv (by simp))]
    exact ih (fun q hq => h q (by simp [hq]))

theorem lookupVals_append_left {l1 : List (String × List String)} {k : String}
    {v : List String} (l2 : List (String × List String))
    (h : lookupVals l1 k = some v) : lookupVals (l1 ++ l2) k = some v := by
  induction l1 with
  | nil => exact absurd h (by simp [lookupVals])
  | cons kv rest ih =>
    simp only [lookupVals] at h
    simp only [List.cons_append, lookupVals]
    by_cases hk : kv.1 = k
    · rw [if_pos hk] at h ⊢
      exact h
    · rw [if_neg hk] at h ⊢
      exact ih h

theorem lookupVals_append_right {l1 : List (String × List String)} {k : String}
    (l2 : List (String × List String))
    (h : lookupVals l1 k = none) : lookupVals (l1 ++ l2) k = lookupVals l2 k := by
  induction l1 with
  | nil => rfl
  | cons kv rest ih =>
    simp only [lookupVals] at h
    simp only [List.cons_append, lookupVals]
    by_cases hk : kv.1 = k
    · rw [if_pos hk] at h
      exact absurd h (by simp)
    · rw [if_neg hk] at h ⊢
      exact ih h

/-- In a map with pairwise-distinct keys, the last-match lookup (a reversed
scan) agrees with the first-match lookup. -/
theorem lookupVals_reverse {l : List (String × List String)}
    (hnd : (l.map (·.1)).Nodup) (k : String) :
    lookupVals l.reverse k = lookupVals l k := by
  induction l with
  | nil => rfl
  | cons kv rest ih =>
    simp only [List.map_cons, List.nodup_cons] at hnd
    obtain ⟨hnot, hnd2⟩ := hnd
    rw [List.reverse_cons]
    by_cases hk : kv.1 = k
    · have hnone2 : lookupVals rest.reverse k = none := by
        apply lookupVals_eq_none
        intro q hq he
        apply hnot
        rw [hk, ← he]
        exact List.mem_map_of_mem (·.1) (List.mem_reverse.mp hq)
      rw [lookupVals_append_right _ hnone2]
      simp only [lookupVals]
      rw [if_pos hk, if_pos hk]
    · cases hrest : lookupVals rest k with
      | some v =>
        rw [lookupVals_append_left _ (by rw [ih hnd2, hrest])]
        simp only [lookupVals]
        rw [if_neg hk, hrest]
      | none =>
        rw [lookupVals_append_right _ (by rw [ih hnd2, hrest])]
        simp only [lookupVals]
        rw [if_neg hk, if_neg hk, hrest]

theorem mem_sortStrings {l : List String} {k : String} :
    k ∈ sortStrings l ↔ k ∈ l :=
  List.mem_insertionSort strLeP

/-- The lowered kept names are exactly the lowered names of the kept
headers. -/
theorem loweredHeaders_keys (h : Header) :
    (loweredHeaders h).map (·.1) = (keptHeaders h).map (fun kv => strLower kv.1) := by
  unfold loweredHeaders
  rw [List.map_map]
  rfl

/-- Lower-cased kept names inherit distinctness from the full header set. -/
theorem loweredHeaders_keys_nodup (h : Header)
    (hnd : (h.map (fun kv => strLower kv.1)).Nodup) :
    ((loweredHeaders h).map (·.1)).Nodup := by
  rw [loweredHeaders_keys]
  exact List.Nodup.sublist (List.Sublist.map _ (List.filter_sublist h)) hnd

/-- C7: for a header set whose lower-cased names are pairwise distinct and
do not include host (as Go http.Header maps guarantee), the canonical
header block computed by the source equals the block the specification
sentence describes: lower-cased names, exactly the four deny-listed headers
excluded, a host line always present, names sorted, values comma-joined,
every line (also one with an empty value list) newline-terminated. -/
theorem claim7_canonical_headers :
    ∀ r : Request,
      (r.header.map (fun kv => strLower kv.1)).Nodup →
      "host" ∉ r.header.map (fun kv => strLower kv.1) →
      getCanonicalHeaders r = canonicalHeadersPerSpec r.header r.url.host := by
  intro r hnd hhost
  have hsub : ∀ x ∈ (keptHeaders r.header).map (fun kv => strLower kv.1),
      x ∈ r.header.map (fun kv => strLower kv.1) :=
    fun x hx => (List.Sublist.map _ (List.filter_sublist r.header)).subset hx
  have hlhnd : ((loweredHeaders r.header).map (·.1)).Nodup :=
    loweredHeaders_keys_nodup r.header hnd
  have hlhhost : ∀ kv ∈ loweredHeaders r.header, kv.1 ≠ "host" := by
    intro kv hkv he
    apply hhost
    have : kv.1 ∈ (loweredHeaders r.header).map (·.1) := List.mem_map_of_mem (·.1) hkv
    rw [loweredHeaders_keys] at this
    exact he ▸ hsub kv.1 this
  unfold getCanonicalHeaders canonicalHeadersPerSpec canonHeaderNames
  rw [← kept_eq_keptPerSpec]
  have hperm : ((loweredHeaders r.header).map (·.1) ++ ["host"]).Perm
      ("host" :: (keptHeaders r.header).map (fun kv => strLower kv.1)) := by
    rw [loweredHeaders_keys]
    exact List.perm_append_singleton _ _
  rw [sortStrings_congr_perm hperm]
  apply congrArg
  apply List.map_congr_left
  intro k hk
  rw [mem_sortStrings, List.mem_cons] at hk
  unfold canonHeaderLine
  by_cases hkh : k = "host"
  · subst hkh
    rw [if_pos rfl, if_pos rfl]
    have : headerVals (loweredHeaders r.header) "host" = [] := by
      unfold headerVals
      rw [lookupVals_eq_none]
      · rfl
      · intro kv hkv
        exact hlhhost kv (List.mem_reverse.mp hkv)
    rw [this]
    show "host:" ++ r.url.host ++ "" ++ "\n" = _
    rw [String.append_empty]
  · rw [if_neg hkh, if_neg hkh]
    have : headerVals (loweredHeaders r.header) k
        = (lookupVals (loweredHeaders r.header) k).getD [] := by
      unfold headerVals
      rw [lookupVals_reverse hlhnd]
    rw [this]
    rfl

/-- Witness for C7 at a concrete header set with a multi-valued header, a
deny-listed header given in non-canonical case, and a header with an empty
value list. -/
theorem claim7_canonical_headers_witness :
    getCanonicalHeaders
        { method := "GET", url := { scheme := "http", host := "h", path := "/", rawQuery := "" },
          header := [("X-Amz-Meta", ["a", "b"]), ("authorization", ["z"]), ("X-Empty", [])],
          body := "", expires := 0, config := sampleConfig }
      = canonicalHeadersPerSpec
          [("X-Amz-Meta", ["a", "b"]), ("authorization", ["z"]), ("X-Empty", [])] "h" :=
  claim7_canonical_headers
    { method := "GET", url := { scheme := "http", host := "h", path := "/", rawQuery := "" },
      header := [("X-Amz-Meta", ["a", "b"]), ("authorization", ["z"]), ("X-Empty", [])],
      body := "", expires := 0, config := sampleConfig }
    (by decide) (by decide)

/-! ### Claim C9: case-insensitivity of V4 canonicalization -/

/-- Two header maps that differ only in the letter case of their stored
names: same length, pointwise equal lower-cased names and equal values. -/
def hdrCaseEquiv (h1 h2 : Header) : Prop :=
  List.Forall₂ (fun a b => strLower a.1 = strLower b.1 ∧ a.2 = b.2) h1 h2

theorem hdrCaseEquiv_symm {h1 h2 : Header} (e : hdrCaseEquiv h1 h2) :
    hdrCaseEquiv h2 h1 := by
  induction e with
  | nil => exact List.Forall₂.nil
  | cons hab _ ih => exact List.Forall₂.cons ⟨hab.1.symm, hab.2.symm⟩ ih

theorem hdrCaseEquiv_append {h1 h2 : Header} (e : hdrCaseEquiv h1 h2)
    (x : String × List String) : hdrCaseEquiv (h1 ++ [x]) (h2 ++ [x]) := by
  induction e with
  | nil => exact List.Forall₂.cons ⟨rfl, rfl⟩ List.Forall₂.nil
  | cons hab _ ih => exact List.Forall₂.cons hab ih

theorem equiv_lower_keys {h1 h2 : Header} (e : hdrCaseEquiv h1 h2) :
    h1.map (fun kv => strLower kv.1) = h2.map (fun kv => strLower kv.1) := by
  induction e with
  | nil => rfl
  | cons hab _ ih =>
    simp only [List.map_cons]
    rw [hab.1, ih]

theorem keptHeaders_equiv {h1 h2 : Header} (e : hdrCaseEquiv h1 h2) :
    hdrCaseEquiv (keptHeaders h1) (keptHeaders h2) := by
  induction e with
  | nil => exact List.Forall₂.nil
  | @cons a b l1 l2 hab etail ih =>
    unfold keptHeaders at ih ⊢
    simp only [List.filter_cons]
    rw [← canonicalHeaderKey_congr hab.1]
    by_cases hc : (!(isIgnoredHeader (canonicalHeaderKey a.1))) = true
    · rw [if_pos hc, if_pos hc]
      exact List.Forall₂.cons hab ih
    · rw [if_neg hc, if_neg hc]
      exact ih

theorem equiv_lowered_map {l1 l2 : Header} (e : hdrCaseEquiv l1 l2) :
    l1.map (fun kv => (strLower kv.1, kv.2)) = l2.map (fun kv => (strLower kv.1, kv.2)) := by
  induction e with
  | nil => rfl
  | cons hab _ ih =>
    simp only [List.map_cons]
    rw [hab.1, hab.2, ih]

theorem loweredHeaders_equiv {h1 h2 : Header} (e : hdrCaseEquiv h1 h2) :
    loweredHeaders h1 = loweredHeaders h2 := by
  unfold loweredHeaders
  exact equiv_lowered_map (keptHeaders_equiv e)

theorem keptLowerNames_congr {h1 h2 : Header} (e : hdrCaseEquiv h1 h2) :
    (keptHeaders h1).map (fun kv => strLower kv.1)
      = (keptHeaders h2).map (fun kv => strLower kv.1) := by
  rw [← loweredHeaders_keys, ← loweredHeaders_keys, loweredHeaders_equiv e]

/-- Case-variant header maps produce the same canonical header block (for
requests with the same URL). -/
theorem getCanonicalHeaders_congr (r1 r2 : Request) (hu : r1.url = r2.url)
    (e : hdrCaseEquiv r1.header r2.header) :
    getCanonicalHeaders r1 = getCanonicalHeaders r2 := by
  unfold getCanonicalHeaders canonHeaderNames
  rw [loweredHeaders_equiv e, hu]

/-- Case-variant header maps produce the same signed-header list. -/
theorem getSignedHeaders_congr (r1 r2 : Request) (e : hdrCaseEquiv r1.header r2.header) :
    getSignedHeaders r1 = getSignedHeaders r2 := by
  unfold getSignedHeaders
  rw [keptLowerNames_congr e]

theorem getHashedPayload_congr (r1 r2 : Request) (hx : r1.expires = r2.expires)
    (hg : headerGet r1.header "X-Amz-Content-Sha256"
      = headerGet r2.header "X-Amz-Content-Sha256") :
    getHashedPayload r1 = getHashedPayload r2 := by
  unfold getHashedPayload
  rw [hx, hg]

/-- The canonical request string only depends on the method, the URL, the
expiry, the case-insensitive header content and the fetched payload hash. -/
theorem getCanonicalRequest_str_congr (r1 r2 : Request)
    (hm : r1.method = r2.method) (hu : r1.url = r2.url) (hx : r1.expires = r2.expires)
    (e : hdrCaseEquiv r1.header r2.header)
    (hg : headerGet r1.header "X-Amz-Content-Sha256"
      = headerGet r2.header "X-Amz-Content-Sha256") :
    (getCanonicalRequest r1).2 = (getCanonicalRequest r2).2 := by
  show String.intercalate "\n"
      [r1.method, getURLEncodedPath r1.url.path, canonicalizeRawQuery r1.url.rawQuery,
       getCanonicalHeaders { r1 with url := { r1.url with rawQuery := canonicalizeRawQuery r1.url.rawQuery } },
       getSignedHeaders { r1 with url := { r1.url with rawQuery := canonicalizeRawQuery r1.url.rawQuery } },
       getHashedPayload { r1 with url := { r1.url with rawQuery := canonicalizeRawQuery r1.url.rawQuery } }]
    = String.intercalate "\n"
      [r2.method, getURLEncodedPath r2.url.path, canonicalizeRawQuery r2.url.rawQuery,
       getCanonicalHeaders { r2 with url := { r2.url with rawQuery := canonicalizeRawQuery r2.url.rawQuery } },
       getSignedHeaders { r2 with url := { r2.url with rawQuery := canonicalizeRawQuery r2.url.rawQuery } },
       getHashedPayload { r2 with url := { r2.url with rawQuery := canonicalizeRawQuery r2.url.rawQuery } }]
  have hch := getCanonicalHeaders_congr
    { r1 with url := { r1.url with rawQuery := canonicalizeRawQuery r1.url.rawQuery } }
    { r2 with url := { r2.url with rawQuery := canonicalizeRawQuery r2.url.rawQuery } }
    (by rw [hu]) e
  have hsh := getSignedHeaders_congr
    { r1 with url := { r1.url with rawQuery := canonicalizeRawQuery r1.url.rawQuery } }
    { r2 with url := { r2.url with rawQuery := canonicalizeRawQuery r2.url.rawQuery } } e
  have hhp := getHashedPayload_congr
    { r1 with url := { r1.url with rawQuery := canonicalizeRawQuery r1.url.rawQuery } }
    { r2 with url := { r2.url with rawQuery := canonicalizeRawQuery r2.url.rawQuery } } hx hg
  rw [hch, hsh, hhp, hm, hu]

/-- The V4 authorization value only depends on the request through its
method, URL, expiry, configuration, case-insensitive header content and
fetched payload hash. -/
theorem signV4AuthValue_congr (cp : CryptoPrims) (t : TimeStamp) (r1 r2 : Request)
    (hm : r1.method = r2.method) (hu : r1.url = r2.url) (hx : r1.expires = r2.expires)
    (hc : r1.config = r2.config) (e : hdrCaseEquiv r1.header r2.header)
    (hg : headerGet r1.header "X-Amz-Content-Sha256"
      = headerGet r2.header "X-Amz-Content-Sha256") :
    signV4AuthValue cp t r1 = signV4AuthValue cp t r2 := by
  unfold signV4AuthValue
  rw [getSignedHeaders_congr r1 r2 e, getCanonicalRequest_str_congr r1 r2 hm hu hx e hg, hc]

/-- Setting X-Amz-Date on a header map that carries no x-amz-date name (in
any case) appends the entry. -/
theorem headerSet_date_append {h : Header}
    (habs : "x-amz-date" ∉ h.map (fun kv => strLower kv.1)) (v : String) :
    headerSet h "X-Amz-Date" v = h ++ [("X-Amz-Date", [v])] := by
  have hck : canonicalHeaderKey "X-Amz-Date" = "X-Amz-Date" := by decide
  have hnone : lookupVals h (canonicalHeaderKey "X-Amz-Date") = none := by
    rw [hck]
    apply lookupVals_eq_none
    intro kv hkv he
    apply habs
    have : strLower kv.1 = "x-amz-date" := by rw [he]; decide
    exact this ▸ List.mem_map_of_mem (fun kv => strLower kv.1) hkv
  unfold headerSet
  rw [if_neg (by rw [hnone]; simp), hck]

/-- Appending an entry whose stored key differs from the canonicalised
lookup key leaves headerGet unchanged. -/
theorem headerGet_append_other {h : Header} {k2 : String} (x : String × List String)
    (hne : x.1 ≠ canonicalHeaderKey k2) :
    headerGet (h ++ [x]) k2 = headerGet h k2 := by
  unfold headerGet
  cases hl : lookupVals h (canonicalHeaderKey k2) with
  | some v => rw [lookupVals_append_left _ hl]
  | none =>
    rw [lookupVals_append_right _ hl]
    simp [lookupVals, hne]

/-- C9 is false of the code as stated: two requests that differ only in the
letter case of the stored name of the payload-hash header do canonicalise
identically (same canonical header block, same signed-header list), but
Header.Get canonicalises its lookup key and misses the lower-cased stored
name, so the hashed payloads differ and V4 signing produces different
authorization values (hence different signatures) under the concrete
injective crypto primitives. -/
theorem claim9_counterexample :
    strLower "X-Amz-Content-Sha256" = strLower "x-amz-content-sha256"
    ∧ getCanonicalHeaders
        { method := "GET", url := { scheme := "http", host := "h", path := "/", rawQuery := "" },
          header := [("X-Amz-Content-Sha256", ["abc"])], body := "", expires := 0,
          config := sampleConfig }
      = getCanonicalHeaders
        { method := "GET", url := { scheme := "http", host := "h", path := "/", rawQuery := "" },
          header := [("x-amz-content-sha256", ["abc"])], body := "", expires := 0,
          config := sampleConfig }
    ∧ getSignedHeaders
        { method := "GET", url := { scheme := "http", host := "h", path := "/", rawQuery := "" },
          header := [("X-Amz-Content-Sha256", ["abc"])], body := "", expires := 0,
          config := sampleConfig }
      = getSignedHeaders
        { method := "GET", url := { scheme := "http", host := "h", path := "/", rawQuery := "" },
          header := [("x-amz-content-sha256", ["abc"])], body := "", expires := 0,
          config := sampleConfig }
    ∧ getHashedPayload
        { method := "GET", url := { scheme := "http", host := "h", path := "/", rawQuery := "" },
          header := [("X-Amz-Content-Sha256", ["abc"])], body := "", expires := 0,
          config := sampleConfig }
      ≠ getHashedPayload
        { method := "GET", url := { scheme := "http", host := "h", path := "/", rawQuery := "" },
          header := [("x-amz-content-sha256", ["abc"])], body := "", expires := 0,
          config := sampleConfig }
    ∧ headerGet (SignV4 sampleCrypto sampleTime false
        { method := "GET", url := { scheme := "http", host := "h", path := "/", rawQuery := "" },
          header := [("X-Amz-Content-Sha256", ["abc"])], body := "", expires := 0,
          config := sampleConfig }).header "Authorization"
      ≠ headerGet (SignV4 sampleCrypto sampleTime false
        { method := "GET", url := { scheme := "http", host := "h", path := "/", rawQuery := "" },
          header := [("x-amz-content-sha256", ["abc"])], body := "", expires := 0,
          config := sampleConfig }).header "Authorization" := by
  refine ⟨by decide, by decide, by decide, by decide, by decide⟩

/-- C9 amended: requests differing only in the letter case of stored header
names always produce identical canonical-header strings and identical
signed-header lists; and V4 signing then produces identical authorization
values (identical signatures) provided the two requests also agree on the
fetched payload hash — Header.Get is case-exact on the stored key — and
neither stores an x-amz-date header that the unconditional X-Amz-Date set
would replace in one request but not the other. -/
theorem claim9_case_insensitivity_amended :
    ∀ (r : Request) (h2 : Header), hdrCaseEquiv r.header h2 →
      (getCanonicalHeaders { r with header := h2 } = getCanonicalHeaders r
        ∧ getSignedHeaders { r with header := h2 } = getSignedHeaders r)
      ∧ (headerGet r.header "X-Amz-Content-Sha256" = headerGet h2 "X-Amz-Content-Sha256" →
          "x-amz-date" ∉ r.header.map (fun kv => strLower kv.1) →
          ∀ (cp : CryptoPrims) (t : TimeStamp) (presign : Bool),
            ∃ auth : String,
              (SignV4 cp t presign { r with header := h2 }).header
                  = headerSet (headerSet h2 "X-Amz-Date" t.iso8601) "Authorization" auth
                ∧ (SignV4 cp t presign r).header
                  = headerSet (headerSet r.header "X-Amz-Date" t.iso8601) "Authorization" auth
                ∧ (SignV4 cp t presign { r with header := h2 }).url
                  = (SignV4 cp t presign r).url) := by
  intro r h2 e
  constructor
  · exact ⟨getCanonicalHeaders_congr { r with header := h2 } r rfl (hdrCaseEquiv_symm e),
      getSignedHeaders_congr { r with header := h2 } r (hdrCaseEquiv_symm e)⟩
  · intro hg hdabs cp t presign
    have hdabs2 : "x-amz-date" ∉ h2.map (fun kv => strLower kv.1) := by
      rw [← equiv_lower_keys e]
      exact hdabs
    have hset2 : headerSet h2 "X-Amz-Date" t.iso8601 = h2 ++ [("X-Amz-Date", [t.iso8601])] :=
      headerSet_date_append hdabs2 t.iso8601
    have hset1 : headerSet r.header "X-Amz-Date" t.iso8601
        = r.header ++ [("X-Amz-Date", [t.iso8601])] :=
      headerSet_date_append hdabs t.iso8601
    have e2 : hdrCaseEquiv (headerSet h2 "X-Amz-Date" t.iso8601)
        (headerSet r.header "X-Amz-Date" t.iso8601) := by
      rw [hset1, hset2]
      exact hdrCaseEquiv_append (hdrCaseEquiv_symm e) _
    have hne : ("X-Amz-Date" : String) ≠ canonicalHeaderKey "X-Amz-Content-Sha256" := by
      decide
    have hg2 : headerGet (headerSet h2 "X-Amz-Date" t.iso8601) "X-Amz-Content-Sha256"
        = headerGet (headerSet r.header "X-Amz-Date" t.iso8601) "X-Amz-Content-Sha256" := by
      rw [hset1, hset2, headerGet_append_other _ hne, headerGet_append_other _ hne]
      exact hg.symm
    have hauth := signV4AuthValue_congr cp t
      { r with header := headerSet h2 "X-Amz-Date" t.iso8601 }
      { r with header := headerSet r.header "X-Amz-Date" t.iso8601 }
      rfl rfl rfl rfl e2 hg2
    refine ⟨signV4AuthValue cp t { r with header := headerSet r.header "X-Amz-Date" t.iso8601 },
      ?_, rfl, rfl⟩
    show headerSet (headerSet h2 "X-Amz-Date" t.iso8601) "Authorization"
        (signV4AuthValue cp t { r with header := headerSet h2 "X-Amz-Date" t.iso8601 }) = _
    rw [hauth]

/-- Witness for the amended C9: the claim's own example pair, an
X-Amz-Meta header stored in two letter cases. -/
theorem claim9_case_insensitivity_amended_witness :
    getCanonicalHeaders
        { method := "GET", url := { scheme := "http", host := "h", path := "/", rawQuery := "" },
          header := [("x-amz-meta", ["v"])], body := "", expires := 0, config := sampleConfig }
      = getCanonicalHeaders
        { method := "GET", url := { scheme := "http", host := "h", path := "/", rawQuery := "" },
          header := [("X-Amz-Meta", ["v"])], body := "", expires := 0, config := sampleConfig }
    ∧ getSignedHeaders
        { method := "GET", url := { scheme := "http", host := "h", path := "/", rawQuery := "" },
          header := [("x-amz-meta", ["v"])], body := "", expires := 0, config := sampleConfig }
      = getSignedHeaders
        { method := "GET", url := { scheme := "http", host := "h", path := "/", rawQuery := "" },
          header := [("X-Amz-Meta", ["v"])], body := "", expires := 0, config := sampleConfig } :=
  (claim9_case_insensitivity_amended
    { method := "GET", url := { scheme := "http", host := "h", path := "/", rawQuery := "" },
      header := [("X-Amz-Meta", ["v"])], body := "", expires := 0, config := sampleConfig }
    [("x-amz-meta", ["v"])]
    (List.Forall₂.cons ⟨by decide, rfl⟩ List.Forall₂.nil)).1

end Mc
